import Mathlib

/-!
Shallow embedding of the streaming-pipeline program in `main.go`:
the `RingBuffer` (fields `data`, `head`, `tail`, `size`; the mutex is
irrelevant in this sequential model), the two filter stages
`filterNegative` and `filterNotDivisibleBy3`, and the aggregator stage
`bufferAndSend`.  Go operations that can panic (slice indexing out of
range, modulo by zero) are modelled with `Option`: `none` is a panic.
Each concurrent stage loop is modelled as a function of the sequence of
events it services (`recv` from upstream, timer `tick`, cancellation),
returning the values it forwards downstream together with a flag that
records whether it has closed its downstream channel (the deferred
`close(out)` that runs when the stage returns).
-/

/-- The `RingBuffer` struct of `main.go` (lines 22-28): a backing slice,
`head`/`tail` indices and the allocated `size`. -/
structure RingBuffer where
  data : List Int
  head : Nat
  tail : Nat
  size : Nat
  deriving DecidableEq, Repr

/-- `NewRingBuffer` (main.go lines 31-36): `make([]int, size)` is a list of
`size` zeros; `head` and `tail` start at 0. -/
def NewRingBuffer (size : Nat) : RingBuffer :=
  { data := List.replicate size 0, head := 0, tail := 0, size := size }

/-- `Push` (main.go lines 39-48): writes `val` at `tail` (a panic — `none` —
if `tail` is out of range of the slice), advances `tail` modulo `size`
(a panic if `size = 0`), and advances `head` when `tail` catches up with it
(overwriting the oldest element). -/
def RingBuffer.Push (rb : RingBuffer) (val : Int) : Option RingBuffer :=
  if rb.tail < rb.data.length then
    if rb.size = 0 then none
    else
      some { data := rb.data.set rb.tail val,
             head := if (rb.tail + 1) % rb.size = rb.head then (rb.head + 1) % rb.size
                     else rb.head,
             tail := (rb.tail + 1) % rb.size,
             size := rb.size }
  else none

/-- The collecting loop of `Flush` (main.go lines 60-63): while
`head ≠ tail`, append `data[head]` (a panic — `none` — if out of range)
and advance `head` modulo `size` (a panic if `size = 0`).  The loop runs at
most `size` times from any well-formed state, so fuel `size + 1` is never
exhausted there; `none` on fuel exhaustion models the infinite loop the Go
code would enter from an ill-formed state. -/
def flushLoop (data : List Int) (size : Nat) : Nat → Nat → Nat → Option (List Int)
  | 0, _, _ => none
  | fuel + 1, head, tail =>
    if head = tail then some []
    else if h : head < data.length then
      if size = 0 then none
      else (flushLoop data size fuel ((head + 1) % size) tail).map
        (fun l => data.get ⟨head, h⟩ :: l)
    else none

/-- `Flush` (main.go lines 51-65): returns `nil` (the empty list) when
`head = tail`, otherwise drains the elements from `head` to `tail` in
oldest-to-newest order; afterwards `head = tail`. -/
def RingBuffer.Flush (rb : RingBuffer) : Option (List Int × RingBuffer) :=
  if rb.head = rb.tail then some ([], rb)
  else (flushLoop rb.data rb.size (rb.size + 1) rb.head rb.tail).map
    (fun l => (l, { rb with head := rb.tail }))

/-- A single client operation on a `RingBuffer`. -/
inductive Op where
  | push (n : Int)
  | flush
  deriving DecidableEq, Repr

/-- Apply one operation; a flush discards the returned values and keeps the
buffer state. -/
def applyOp (rb : RingBuffer) : Op → Option RingBuffer
  | Op.push n => rb.Push n
  | Op.flush => (rb.Flush).map (fun p => p.2)

/-- Apply a sequence of operations left to right, propagating panics. -/
def applyOps (rb : RingBuffer) : List Op → Option RingBuffer
  | [] => some rb
  | op :: ops => (applyOp rb op).bind (fun rb' => applyOps rb' ops)

/-- Push a list of values in order, propagating panics. -/
def pushAll (rb : RingBuffer) (vals : List Int) : Option RingBuffer :=
  vals.foldl (fun acc v => acc.bind (fun rb' => rb'.Push v)) (some rb)

/-- An event serviced by a filter stage's `select`: a value received from
the upstream channel, or the cancellation (`done`) signal. -/
inductive FilterEvent where
  | recv (n : Int)
  | cancel
  deriving DecidableEq, Repr

/-- The loop common to `filterNegative` and `filterNotDivisibleBy3`
(main.go lines 68-95): on `recv n`, forward `n` downstream when the
predicate holds and loop; on `cancel`, return — the deferred `close(out)`
fires, recorded by the `Bool` (`true` means the downstream channel was
closed).  The result lists the values forwarded downstream in order. -/
def filterRun (keep : Int → Bool) : List FilterEvent → List Int × Bool
  | [] => ([], false)
  | FilterEvent.recv n :: es =>
    ((if keep n then n :: (filterRun keep es).1 else (filterRun keep es).1),
     (filterRun keep es).2)
  | FilterEvent.cancel :: _ => ([], true)

/-- The condition of `filterNegative` (main.go line 73): `n >= 0`. -/
def filterNegativeKeep (n : Int) : Bool := decide (0 ≤ n)

/-- The condition of `filterNotDivisibleBy3` (main.go line 88):
`n != 0 && n%3 == 0`; Go's `%` is truncated division remainder, `Int.tmod`. -/
def filterNotDivisibleBy3Keep (n : Int) : Bool :=
  decide (n ≠ 0) && decide (n.tmod 3 = 0)

/-- The `filterNegative` stage (main.go lines 68-80). -/
def filterNegativeRun (es : List FilterEvent) : List Int × Bool :=
  filterRun filterNegativeKeep es

/-- The `filterNotDivisibleBy3` stage (main.go lines 83-95). -/
def filterNotDivisibleBy3Run (es : List FilterEvent) : List Int × Bool :=
  filterRun filterNotDivisibleBy3Keep es

/-- A pure stream of received values, with no cancellation. -/
def recvs (l : List Int) : List FilterEvent := l.map FilterEvent.recv

/-- An event serviced by the aggregator's `select` (main.go lines 104-119):
a value from upstream, a ticker tick, or the cancellation signal. -/
inductive AggEvent where
  | recv (n : Int)
  | tick
  | cancel
  deriving DecidableEq, Repr

/-- The loop of `bufferAndSend` (main.go lines 104-119): on `recv n`, push
into the buffer; on `tick`, flush and forward every returned value in
order; on `cancel`, flush once more, forward the values, and return — the
deferred `close(out)` fires (`true` in the result).  `none` propagates a
buffer panic. -/
def bufferAndSendLoop (rb : RingBuffer) : List AggEvent → Option (List Int × Bool)
  | [] => some ([], false)
  | AggEvent.recv n :: es => (rb.Push n).bind (fun rb' => bufferAndSendLoop rb' es)
  | AggEvent.tick :: es =>
    (rb.Flush).bind (fun p =>
      (bufferAndSendLoop p.2 es).map (fun q => (p.1 ++ q.1, q.2)))
  | AggEvent.cancel :: _ => (rb.Flush).map (fun p => (p.1, true))

/-- `bufferAndSend` (main.go lines 98-120): allocates a fresh ring buffer of
`bufferSize` and services its events. -/
def bufferAndSend (bufferSize : Nat) (events : List AggEvent) : Option (List Int × Bool) :=
  bufferAndSendLoop (NewRingBuffer bufferSize) events

/-- Well-formedness of a buffer state: positive size, backing slice of
exactly `size` slots, and in-range indices.  `NewRingBuffer C` satisfies it
for `C ≥ 1` and both operations preserve it. -/
def RingBuffer.WF (rb : RingBuffer) : Prop :=
  1 ≤ rb.size ∧ rb.data.length = rb.size ∧ rb.head < rb.size ∧ rb.tail < rb.size

/-- Number of live elements between `head` and `tail`, written without
modulo: `tail - head` when the window does not wrap, `tail + size - head`
when it does. -/
def liveSpan (head tail size : Nat) : Nat :=
  if head ≤ tail then tail - head else tail + size - head

theorem tmod_three_eq_zero_iff (n : Int) : n.tmod 3 = 0 ↔ n % 3 = 0 :=
  ⟨fun h => Int.emod_eq_zero_of_dvd (Int.dvd_of_tmod_eq_zero h),
   fun h => Int.tmod_eq_zero_of_dvd (Int.dvd_of_emod_eq_zero h)⟩

theorem RingBuffer.push_wf {rb : RingBuffer} (v : Int) (h : rb.WF) :
    ∃ rb', rb.Push v = some rb' ∧ rb'.WF ∧ rb'.size = rb.size := by
  obtain ⟨h1, h2, h3, h4⟩ := h
  have hidx : rb.tail < rb.data.length := by omega
  have hsz : ¬ rb.size = 0 := by omega
  refine ⟨{ data := rb.data.set rb.tail v,
            head := if (rb.tail + 1) % rb.size = rb.head then (rb.head + 1) % rb.size
                    else rb.head,
            tail := (rb.tail + 1) % rb.size,
            size := rb.size }, ?_, ⟨h1, ?_, ?_, ?_⟩, rfl⟩
  · rw [RingBuffer.Push, if_pos hidx, if_neg hsz]
  · simpa using h2
  · dsimp only
    split
    · exact Nat.mod_lt _ (by omega)
    · exact h3
  · exact Nat.mod_lt _ (by omega)

theorem flushLoop_length (data : List Int) (size : Nat) :
    ∀ fuel head tail, data.length = size → head < size → tail < size →
      liveSpan head tail size < fuel →
      ∃ l, flushLoop data size fuel head tail = some l ∧
        l.length = liveSpan head tail size := by
  intro fuel
  induction fuel with
  | zero => intro head tail _ _ _ hlt; exact absurd hlt (Nat.not_lt_zero _)
  | succ fuel ih =>
    intro head tail hlen hh ht hfuel
    by_cases hht : head = tail
    · subst hht
      exact ⟨[], by simp [flushLoop], by simp [liveSpan]⟩
    · have hidx : head < data.length := by omega
      have hsz : ¬ size = 0 := by omega
      have hstep : (head + 1) % size < size ∧
          liveSpan ((head + 1) % size) tail size = liveSpan head tail size - 1 ∧
          1 ≤ liveSpan head tail size := by
        rcases Nat.lt_or_ge (head + 1) size with hlt | hge
        · rw [Nat.mod_eq_of_lt hlt]
          simp only [liveSpan]
          split_ifs <;> omega
        · have hone : head + 1 = size := by omega
          rw [hone, Nat.mod_self]
          simp only [liveSpan]
          split_ifs <;> omega
      obtain ⟨hh', hdec, hpos⟩ := hstep
      obtain ⟨l, hl, hlen'⟩ := ih ((head + 1) % size) tail hlen hh' ht (by omega)
      refine ⟨data.get ⟨head, hidx⟩ :: l, ?_, ?_⟩
      · rw [flushLoop, if_neg hht, dif_pos hidx, if_neg hsz, hl]
        rfl
      · simp only [List.length_cons, hlen']
        omega

theorem RingBuffer.flush_wf {rb : RingBuffer} (h : rb.WF) :
    ∃ l rb', rb.Flush = some (l, rb') ∧
      l.length = liveSpan rb.head rb.tail rb.size ∧
      rb'.WF ∧ rb'.size = rb.size ∧ rb'.head = rb'.tail := by
  obtain ⟨h1, h2, h3, h4⟩ := h
  by_cases hht : rb.head = rb.tail
  · refine ⟨[], rb, ?_, ?_, ⟨h1, h2, h3, h4⟩, rfl, hht⟩
    · rw [RingBuffer.Flush, if_pos hht]
    · simp [liveSpan, hht]
  · have hdlt : liveSpan rb.head rb.tail rb.size < rb.size + 1 := by
      simp only [liveSpan]; split_ifs <;> omega
    obtain ⟨l, hl, hlen⟩ :=
      flushLoop_length rb.data rb.size (rb.size + 1) rb.head rb.tail h2 h3 h4 hdlt
    refine ⟨l, { rb with head := rb.tail }, ?_, hlen, ⟨h1, h2, h4, h4⟩, rfl, rfl⟩
    rw [RingBuffer.Flush, if_neg hht, hl]
    rfl

theorem applyOps_wf :
    ∀ (ops : List Op) (rb : RingBuffer), rb.WF →
      ∃ rb', applyOps rb ops = some rb' ∧ rb'.WF ∧ rb'.size = rb.size := by
  intro ops
  induction ops with
  | nil => intro rb h; exact ⟨rb, rfl, h, rfl⟩
  | cons op ops ih =>
    intro rb h
    cases op with
    | push n =>
      obtain ⟨rb1, hp, hw, hs⟩ := RingBuffer.push_wf n h
      obtain ⟨rb2, ha, hw2, hs2⟩ := ih rb1 hw
      exact ⟨rb2, by simp [applyOps, applyOp, hp, ha], hw2, by omega⟩
    | flush =>
      obtain ⟨l, rb1, hf, _, hw, hs, _⟩ := RingBuffer.flush_wf h
      obtain ⟨rb2, ha, hw2, hs2⟩ := ih rb1 hw
      exact ⟨rb2, by simp [applyOps, applyOp, hf, ha], hw2, by omega⟩

theorem newRingBuffer_wf {C : Nat} (hC : 1 ≤ C) : (NewRingBuffer C).WF := by
  refine ⟨hC, ?_, ?_, ?_⟩ <;> simp [NewRingBuffer] <;> omega

theorem filterRun_recvs (keep : Int → Bool) (l : List Int) :
    filterRun keep (recvs l) = (l.filter keep, false) := by
  induction l with
  | nil => rfl
  | cons a l ih =>
    show filterRun keep (FilterEvent.recv a :: recvs l) = _
    simp only [filterRun, ih, List.filter_cons]

theorem filterRun_closed_iff (keep : Int → Bool) :
    ∀ es, (filterRun keep es).2 = true ↔ FilterEvent.cancel ∈ es := by
  intro es
  induction es with
  | nil => simp [filterRun]
  | cons e es ih =>
    cases e with
    | recv n => simpa [filterRun] using ih
    | cancel => simp [filterRun]

/-- Claim C1 (failing-input evaluation): pushing 3, 9, 6 into a fresh
ring buffer of capacity 2 and flushing yields `[6]`, not the `[9, 6]`
stated by the specification — the head/tail representation keeps at most
`C - 1 = 1` live value. -/
theorem c1_capacity_two_overflow_eval :
    (pushAll (NewRingBuffer 2) [3, 9, 6]).bind
        (fun rb => (rb.Flush).map Prod.fst) = some [6] ∧
      (pushAll (NewRingBuffer 2) [3, 9, 6]).bind
        (fun rb => (rb.Flush).map Prod.fst) ≠ some [9, 6] := by
  constructor
  · rfl
  · decide

/-- Claim C3: `filterNegative` forwards `n` iff `n ≥ 0` and
`filterNotDivisibleBy3` forwards `n` iff `n ≠ 0 ∧ n % 3 = 0`; on a pure
stream of received values each stage forwards exactly the passing values,
preserving their arrival order (the output is the order-preserving
`List.filter`, a sublist of the input). -/
theorem c3_filter_correctness :
    (∀ n : Int, filterNegativeKeep n = true ↔ 0 ≤ n) ∧
    (∀ n : Int, filterNotDivisibleBy3Keep n = true ↔ (n ≠ 0 ∧ n % 3 = 0)) ∧
    (∀ l : List Int,
      (filterNegativeRun (recvs l)).1 = l.filter filterNegativeKeep ∧
        (l.filter filterNegativeKeep).Sublist l) ∧
    (∀ l : List Int,
      (filterNotDivisibleBy3Run (recvs l)).1 = l.filter filterNotDivisibleBy3Keep ∧
        (l.filter filterNotDivisibleBy3Keep).Sublist l) := by
  refine ⟨?_, ?_, ?_, ?_⟩
  · intro n; simp [filterNegativeKeep]
  · intro n; simp [filterNotDivisibleBy3Keep, tmod_three_eq_zero_iff]
  · intro l
    exact ⟨by rw [filterNegativeRun, filterRun_recvs], List.filter_sublist l⟩
  · intro l
    exact ⟨by rw [filterNotDivisibleBy3Run, filterRun_recvs], List.filter_sublist l⟩

/-- Claim C4: on observing cancellation, `bufferAndSend` performs one final
flush, forwards the returned values in oldest-to-newest order, closes its
downstream channel and terminates — any later events (ticks included) are
never serviced; concretely, a capacity-5 aggregator holding 3 and 9 emits
`[3, 9]` once, closed, regardless of what follows the cancellation. -/
theorem c4_aggregator_cancellation_drain :
    (∀ rb es, bufferAndSendLoop rb (AggEvent.cancel :: es) =
      (rb.Flush).map (fun p => (p.1, true))) ∧
    (∀ es, bufferAndSend 5 (AggEvent.recv 3 :: AggEvent.recv 9 ::
      AggEvent.cancel :: es) = some ([3, 9], true)) :=
  ⟨fun _ _ => rfl, fun _ => rfl⟩

/-- Claim C5: `Flush` on a freshly created buffer returns the empty list,
and immediately after any successful `Flush`, a second `Flush` with no
intervening pushes returns the empty list. -/
theorem c5_flush_empty_and_idempotent :
    (∀ C, (NewRingBuffer C).Flush = some ([], NewRingBuffer C)) ∧
    (∀ (rb : RingBuffer) (l : List Int) (rb' : RingBuffer),
      rb.Flush = some (l, rb') → rb'.Flush = some ([], rb')) := by
  constructor
  · intro C; rfl
  · intro rb l rb' h
    have hht : rb'.head = rb'.tail := by
      rw [RingBuffer.Flush] at h
      by_cases heq : rb.head = rb.tail
      · rw [if_pos heq] at h
        have hrb : rb = rb' := congrArg Prod.snd (Option.some.inj h)
        rw [← hrb]
        exact heq
      · rw [if_neg heq] at h
        obtain ⟨l0, -, hf⟩ := Option.map_eq_some'.mp h
        have hrb : ({ rb with head := rb.tail } : RingBuffer) = rb' :=
          congrArg Prod.snd hf
        rw [← hrb]
    rw [RingBuffer.Flush, if_pos hht]

/-- Claim C5 witness: flushing a capacity-2 buffer holding the single value
3 leaves a state whose immediate re-flush returns the empty list. -/
theorem c5_flush_empty_and_idempotent_witness :
    (⟨[3, 0], 1, 1, 2⟩ : RingBuffer).Flush = some ([], ⟨[3, 0], 1, 1, 2⟩) :=
  c5_flush_empty_and_idempotent.2 ⟨[3, 0], 0, 1, 2⟩ [3] ⟨[3, 0], 1, 1, 2⟩ (by decide)

/-- Claim C6 (end-to-end example): on input `[-2, 3, 4, 9, 0, 6]` the first
filter emits `[3, 4, 9, 0, 6]`, the second emits `[3, 9, 6]`, and a
capacity-5 aggregator that receives those three values and then one timer
tick emits `[3, 9, 6]` in that order. -/
theorem c6_end_to_end_example :
    (filterNegativeRun (recvs [-2, 3, 4, 9, 0, 6])).1 = [3, 4, 9, 0, 6] ∧
    (filterNotDivisibleBy3Run (recvs [3, 4, 9, 0, 6])).1 = [3, 9, 6] ∧
    bufferAndSend 5 [AggEvent.recv 3, AggEvent.recv 9, AggEvent.recv 6,
      AggEvent.tick] = some ([3, 9, 6], false) := by
  refine ⟨?_, ?_, ?_⟩ <;> rfl

/-- Claim C7: a second cancellation trigger has no additional effect — for
every stage, the run on a trace with two consecutive cancellations equals
the run on a single cancellation: the drain happens once, the downstream
channel is closed once, and nothing is re-executed. -/
theorem c7_shutdown_idempotent :
    (∀ es, filterNegativeRun (FilterEvent.cancel :: FilterEvent.cancel :: es) =
      filterNegativeRun [FilterEvent.cancel]) ∧
    (∀ es, filterNotDivisibleBy3Run (FilterEvent.cancel :: FilterEvent.cancel :: es) =
      filterNotDivisibleBy3Run [FilterEvent.cancel]) ∧
    (∀ es, filterNegativeRun (FilterEvent.cancel :: es) = ([], true)) ∧
    (∀ es, filterNotDivisibleBy3Run (FilterEvent.cancel :: es) = ([], true)) ∧
    (∀ rb es, bufferAndSendLoop rb (AggEvent.cancel :: AggEvent.cancel :: es) =
      bufferAndSendLoop rb [AggEvent.cancel]) :=
  ⟨fun _ => rfl, fun _ => rfl, fun _ => rfl, fun _ => rfl, fun _ _ => rfl⟩

/-- Claim C10: a filter stage closes its downstream channel exactly when it
observes cancellation — never because of upstream events; a closed upstream
channel yields the zero value on every receive, which `filterNegative`
forwards (0 ≥ 0) while `filterNotDivisibleBy3` discards (0 ≠ 0 fails), and
in both cases the stage keeps looping. -/
theorem c10_closed_upstream_behavior :
    (∀ es, (filterNegativeRun es).2 = true ↔ FilterEvent.cancel ∈ es) ∧
    (∀ es, (filterNotDivisibleBy3Run es).2 = true ↔ FilterEvent.cancel ∈ es) ∧
    filterNegativeKeep 0 = true ∧
    (∀ es, filterNegativeRun (FilterEvent.recv 0 :: es) =
      ((0 : Int) :: (filterNegativeRun es).1, (filterNegativeRun es).2)) ∧
    filterNotDivisibleBy3Keep 0 = false ∧
    (∀ es, filterNotDivisibleBy3Run (FilterEvent.recv 0 :: es) =
      filterNotDivisibleBy3Run es) :=
  ⟨filterRun_closed_iff filterNegativeKeep,
   filterRun_closed_iff filterNotDivisibleBy3Keep,
   rfl, fun _ => rfl, rfl, fun _ => rfl⟩

/-- Claim C8 (effective capacity): from `NewRingBuffer C` with `C ≥ 1`,
every sequence of pushes and flushes that returns (no panic) keeps `head`
and `tail` strictly below `C`, keeps the live-element count
`(tail - head) mod C` (written `(tail + C - head) % C` in `Nat`) at most
`C - 1`, and consequently a flush of the reached state returns at most
`C - 1` values. -/
theorem c8_effective_capacity_invariant (C : Nat) (hC : 1 ≤ C) (ops : List Op)
    (rb' : RingBuffer) (h : applyOps (NewRingBuffer C) ops = some rb') :
    rb'.head < C ∧ rb'.tail < C ∧ (rb'.tail + C - rb'.head) % C ≤ C - 1 ∧
    ∃ l rb'', rb'.Flush = some (l, rb'') ∧ l.length ≤ C - 1 := by
  obtain ⟨rb1, ha, hw, hs⟩ := applyOps_wf ops (NewRingBuffer C) (newRingBuffer_wf hC)
  have hrb : rb' = rb1 := Option.some.inj (h.symm.trans ha)
  subst hrb
  have hsC : rb'.size = C := by simpa [NewRingBuffer] using hs
  obtain ⟨l, rb'', hf, hlen, -, -, -⟩ := RingBuffer.flush_wf hw
  obtain ⟨h1, h2, h3, h4⟩ := hw
  refine ⟨by omega, by omega, ?_, l, rb'', hf, ?_⟩
  · have := Nat.mod_lt (rb'.tail + C - rb'.head) (show 0 < C by omega)
    omega
  · simp only [liveSpan] at hlen
    split_ifs at hlen <;> omega

/-- Claim C8 witness: with capacity 2 and the single push of 3, the reached
state has in-range indices, at most one live element, and flushes at most
one value. -/
theorem c8_effective_capacity_invariant_witness :
    (⟨[3, 0], 0, 1, 2⟩ : RingBuffer).head < 2 ∧
    (⟨[3, 0], 0, 1, 2⟩ : RingBuffer).tail < 2 ∧
    ((⟨[3, 0], 0, 1, 2⟩ : RingBuffer).tail + 2 -
      (⟨[3, 0], 0, 1, 2⟩ : RingBuffer).head) % 2 ≤ 2 - 1 ∧
    ∃ l rb'', (⟨[3, 0], 0, 1, 2⟩ : RingBuffer).Flush = some (l, rb'') ∧
      l.length ≤ 2 - 1 :=
  c8_effective_capacity_invariant 2 (by decide) [Op.push 3] ⟨[3, 0], 0, 1, 2⟩
    (by decide)

/-- Claim C9 (safety): starting from `NewRingBuffer C` with `C ≥ 1`, any
sequence of pushes and flushes succeeds — no slice index is out of range
and no modulo has a zero divisor — whereas `NewRingBuffer 0` is created
successfully but its first `Push` panics (models Go's index-out-of-range). -/
theorem c9_push_flush_total_and_zero_capacity :
    (∀ C, 1 ≤ C → ∀ ops, (applyOps (NewRingBuffer C) ops).isSome = true) ∧
    (∀ v : Int, (NewRingBuffer 0).Push v = none) := by
  constructor
  · intro C hC ops
    obtain ⟨rb', ha, -, -⟩ := applyOps_wf ops (NewRingBuffer C) (newRingBuffer_wf hC)
    rw [ha]
    rfl
  · intro v
    rfl

/-- Claim C9 witness: a capacity-1 buffer survives a push followed by a
flush, and pushing 7 into a capacity-0 buffer panics. -/
theorem c9_push_flush_total_and_zero_capacity_witness :
    (applyOps (NewRingBuffer 1) [Op.push 5, Op.flush]).isSome = true ∧
    (NewRingBuffer 0).Push 7 = none :=
  ⟨c9_push_flush_total_and_zero_capacity.1 1 (by decide) [Op.push 5, Op.flush],
   c9_push_flush_total_and_zero_capacity.2 7⟩
